import Mathlib

/-
Formal model of the resumable, checkpointed harvesting engine implemented in
src/fetch_metadata_dataset_size.py and src/fetch_metadata_replevel.py.

Conventions of the embedding:
- A parquet file on disk is modelled as `Option (List Row)`; `none` models a
  file that fails to parse (the scripts swallow the exception and skip it).
- The parts directory is a `List (Option (List Row))` in file-enumeration
  order (glob order in fetch_metadata_dataset_size.py, sorted glob order in
  fetch_metadata_replevel.py; both are covered since the list is abstract).
- pandas `sort_values("id")` sorts on the id column with the default
  quicksort, which pandas does not guarantee to be stable: the relative
  order of rows sharing an id is implementation-defined.  The model fixes
  one admissible order (a stable insertion sort); only properties that do
  not depend on that tie-break are asserted of the program.
- `drop_duplicates("id", keep="last")` keeps a row exactly when no later row
  of the frame has the same id.
-/

namespace Harvest

/-- One tabular record as written by the fetchers: an identifier, an opaque
payload column and a status column (`fetch_timestamp` is not modelled). -/
structure Row where
  id : String
  payload : Int
  status : String
deriving DecidableEq, Repr

/-- Strict comparison on the sort key used by `sort_values("id")`. -/
def rowLT (a b : Row) : Bool := decide (a.id < b.id)

/-- Insert a row into an id-sorted list, before every row of equal id. -/
def insert_row (r : Row) : List Row → List Row
  | [] => [r]
  | s :: ss => if rowLT s r then s :: insert_row r ss else r :: s :: ss

/-- Model of `DataFrame.sort_values("id")`: a sort on the id column.  The
default quicksort of pandas is not guaranteed stable, so the order among
rows of equal id is implementation-defined; this definition fixes one
admissible order, and nothing proved of `merge_parts` depends on it. -/
def sort_values (rows : List Row) : List Row :=
  rows.foldr insert_row []

/-- Model of `DataFrame.drop_duplicates("id", keep="last")`: a row is kept
exactly when no later row has the same id. -/
def drop_duplicates : List Row → List Row
  | [] => []
  | r :: rs =>
    if rs.any (fun s => s.id == r.id) then drop_duplicates rs
    else r :: drop_duplicates rs

/-- Model of `merge_parts` (fetch_metadata_dataset_size.py lines 84-99 and
fetch_metadata_replevel.py lines 86-104).  `parts` is the content of the
parts directory in file-enumeration order (`none` = unreadable file, skipped
by the try/except around `pd.read_parquet`), `out_prior` is the current
content of the consolidated output file.  The function returns the new
content of the output file: unchanged when no readable part exists
(the code returns before writing), otherwise the concatenation of the
readable parts sorted by id and deduplicated keeping the last occurrence.
Note that the prior consolidated file is *not* read: only the glob of the
parts directory feeds the concatenation. -/
def merge_parts (parts : List (Option (List Row))) (out_prior : Option (List Row)) :
    Option (List Row) :=
  let dfs := parts.filterMap id
  if dfs.isEmpty then out_prior
  else some (drop_duplicates (sort_values dfs.flatten))

/-- Membership is preserved by `insert_row`. -/
theorem mem_insert_row {r s : Row} : ∀ {l : List Row}, s ∈ insert_row r l ↔ s = r ∨ s ∈ l
  | [] => by simp [insert_row]
  | t :: ts => by
    by_cases h : rowLT t r
    · simp only [insert_row, if_pos h, List.mem_cons, mem_insert_row (l := ts)]
      tauto
    · simp only [insert_row, if_neg h, List.mem_cons]

/-- Membership is preserved by `sort_values`. -/
theorem mem_sort_values {s : Row} : ∀ {l : List Row}, s ∈ sort_values l ↔ s ∈ l
  | [] => Iff.rfl
  | t :: ts => by
    simp only [sort_values, List.foldr_cons, List.mem_cons]
    rw [show List.foldr insert_row [] ts = sort_values ts from rfl] at *
    simpa [mem_insert_row, mem_sort_values (l := ts)] using Iff.rfl

/-- `drop_duplicates` only returns rows of its input. -/
theorem mem_of_mem_drop_duplicates {s : Row} :
    ∀ {l : List Row}, s ∈ drop_duplicates l → s ∈ l
  | [], h => h
  | t :: ts, h => by
    by_cases hd : ts.any (fun u => u.id == t.id)
    · simp only [drop_duplicates, if_pos hd] at h
      exact List.mem_cons_of_mem _ (mem_of_mem_drop_duplicates h)
    · simp only [drop_duplicates, if_neg hd, List.mem_cons] at h
      rcases h with h | h
      · exact h ▸ List.mem_cons_self _ _
      · exact List.mem_cons_of_mem _ (mem_of_mem_drop_duplicates h)

/-- Claim C9: if the parts directory contributes no readable parquet file
(none at all, or all of them unreadable), `merge_parts` returns without
writing: the consolidated output is left exactly as it was. -/
theorem merge_parts_empty_preserves_out
    (parts : List (Option (List Row))) (out_prior : Option (List Row))
    (h : parts.filterMap id = []) :
    merge_parts parts out_prior = out_prior := by
  simp [merge_parts, h]

/-- Witness for C9: a directory holding one unreadable file leaves the
existing consolidated file untouched. -/
theorem merge_parts_empty_preserves_out_witness :
    merge_parts [none] (some [⟨"b", 2, "ok"⟩]) = some [⟨"b", 2, "ok"⟩] :=
  merge_parts_empty_preserves_out [none] (some [⟨"b", 2, "ok"⟩]) rfl

/-- Counterexample to claim C1: a parts directory holding one readable part
with only id "a", together with a prior consolidated file that holds id "b",
merges to a dataset containing only id "a" — the identifier "b" present in
the prior consolidated dataset does not appear in the merge output, because
`merge_parts` never reads the consolidated file. -/
theorem merge_parts_drops_prior_counterexample :
    merge_parts [some [⟨"a", 1, "ok"⟩]] (some [⟨"b", 2, "ok"⟩]) = some [⟨"a", 1, "ok"⟩]
    ∧ ([(⟨"a", 1, "ok"⟩ : Row)].all (fun r => !(r.id == "b"))) = true := by
  constructor
  · rfl
  · rfl

/-- Claim C1 (amended): the merge reads only the readable parquet files of
the parts directory; the prior consolidated file is not an input.  Whenever
at least one readable part exists, the output is rebuilt from the parts
alone, and every row of the output comes from some readable part. -/
theorem merge_parts_reads_only_parts
    (parts : List (Option (List Row))) (out_prior : Option (List Row))
    (h : parts.filterMap id ≠ []) :
    merge_parts parts out_prior
      = some (drop_duplicates (sort_values (parts.filterMap id).flatten))
    ∧ ∀ r ∈ drop_duplicates (sort_values (parts.filterMap id).flatten),
        ∃ df ∈ parts.filterMap id, r ∈ df := by
  refine ⟨?_, ?_⟩
  · simp only [merge_parts]
    rw [if_neg (by simpa [List.isEmpty_iff] using h)]
  · intro r hr
    have hmem : r ∈ (parts.filterMap id).flatten :=
      mem_sort_values.mp (mem_of_mem_drop_duplicates hr)
    simpa using List.mem_flatten.mp hmem

/-- Witness for the amended C1: with one readable part `[row "a"]` and an
unrelated prior consolidated file, the merge output is rebuilt from the part
alone. -/
theorem merge_parts_reads_only_parts_witness :
    merge_parts [some [⟨"a", 1, "ok"⟩]] (some [⟨"b", 2, "ok"⟩])
      = some (drop_duplicates (sort_values ([some [(⟨"a", 1, "ok"⟩ : Row)]].filterMap id).flatten)) :=
  (merge_parts_reads_only_parts [some [⟨"a", 1, "ok"⟩]] (some [⟨"b", 2, "ok"⟩])
    (by simp)).1

/-- A record row of fetch_metadata_dataset_size.py (the `fetch_timestamp`
column, a wall-clock string, is not modelled). -/
structure SizeRecord where
  id : String
  dataset_size_bytes : Option Int
  status : String
deriving DecidableEq, Repr

/-- Model of `list_done_ids` (fetch_metadata_dataset_size.py lines 57-69):
reads the final consolidated file when it exists and every parquet file of
the parts directory, skipping any file that fails to read, and collects the
id column of each.  The Python set union is modelled as a list whose
membership is the union. -/
def list_done_ids (parts : List (Option (List SizeRecord)))
    (final : Option (List SizeRecord)) : List String :=
  (final.toList ++ parts.filterMap id).flatten.map (fun r => r.id)

/-- Model of line 147: `todo = [i for i in ids_all if i not in done]`. -/
def todo (ids_all : List String) (done : List String) : List String :=
  ids_all.filter (fun i => !done.contains i)

/-- Does one completed source (readable = `some`) contain the id `i`?  An
unreadable source contributes no ids. -/
def srcHas (i : String) (src : Option (List SizeRecord)) : Bool :=
  match src with
  | some rs => rs.any (fun r => r.id == i)
  | none => false

/-- Modelled from the spec (§4.1): `computeOutstanding(all, completedSources)`
returns `all` minus the union of ids found across every readable completed
source, preserving the original order; an unreadable source contributes no
ids. -/
def computeOutstanding (all : List String)
    (completedSources : List (Option (List SizeRecord))) : List String :=
  all.filter (fun i => !completedSources.any (srcHas i))

/-- `List.any` after a map, for a map that changes the element type. -/
theorem any_map_comp {α β : Type} (f : α → β) (p : β → Bool) :
    ∀ l : List α, (l.map f).any p = l.any (fun a => p (f a))
  | [] => rfl
  | a :: l => by simp only [List.map_cons, List.any_cons, any_map_comp f p l]

/-- String equality tests commute. -/
theorem beq_swap (a b : String) : (a == b) = (b == a) := by
  by_cases h : a = b
  · rw [h]
  · rw [beq_eq_false_iff_ne.mpr h, beq_eq_false_iff_ne.mpr (Ne.symm h)]

/-- The done set collected by `list_done_ids` contains `i` exactly when the
consolidated file or some readable part mentions `i`. -/
theorem list_done_ids_contains (i : String) (parts : List (Option (List SizeRecord)))
    (final : Option (List SizeRecord)) :
    (list_done_ids parts final).contains i = (final :: parts).any (srcHas i) := by
  rw [list_done_ids, List.contains_eq_any_beq, any_map_comp]
  simp only [List.any_flatten, List.any_append, List.any_cons, List.any_filterMap]
  congr 1
  · cases final <;> simp [srcHas, beq_swap]
  · congr 1
    funext src
    cases src <;> simp [srcHas, beq_swap]

/-- Claim C5: the outstanding list computed by the script equals the
spec-side `computeOutstanding` over the consolidated file and the parts as
completed sources; it is a sublist of the input (order preserved); and the
done set depends only on the id column — rewriting every record's status
arbitrarily leaves it unchanged. -/
theorem todo_matches_computeOutstanding
    (all : List String) (parts : List (Option (List SizeRecord)))
    (final : Option (List SizeRecord)) :
    todo all (list_done_ids parts final) = computeOutstanding all (final :: parts)
    ∧ (todo all (list_done_ids parts final)).Sublist all
    ∧ ∀ g : SizeRecord → String,
        list_done_ids
          (parts.map (Option.map (List.map
            (fun r => SizeRecord.mk r.id r.dataset_size_bytes (g r)))))
          (final.map (List.map
            (fun r => SizeRecord.mk r.id r.dataset_size_bytes (g r))))
          = list_done_ids parts final := by
  refine ⟨?_, List.filter_sublist all, ?_⟩
  · refine List.filter_congr ?_
    intro i hi
    rw [list_done_ids_contains]
  · intro g
    simp only [list_done_ids]
    rw [show (parts.map (Option.map (List.map
          (fun r => SizeRecord.mk r.id r.dataset_size_bytes (g r))))).filterMap id
        = (parts.filterMap id).map (List.map
          (fun r => SizeRecord.mk r.id r.dataset_size_bytes (g r))) by
      rw [List.filterMap_map, List.map_filterMap]
      simp]
    cases final <;> simp [List.map_flatten, List.map_map, Function.comp_def]

/-- Python `str.strip()` on a line, modelled on the character list: drop
leading and trailing whitespace. -/
def strip (l : List Char) : List Char :=
  ((l.dropWhile Char.isWhitespace).reverse.dropWhile Char.isWhitespace).reverse

/-- Model of `read_ids` (fetch_metadata_dataset_size.py lines 54-55,
fetch_metadata_replevel.py lines 53-55):
`[l.strip() for l in open(p) if l.strip()]` over the file's lines. -/
def read_ids (lines : List (List Char)) : List (List Char) :=
  lines.filterMap (fun l => if (strip l).isEmpty then none else some (strip l))

/-- The head of a `dropWhile` never satisfies the dropped predicate. -/
theorem head_dropWhile_false {p : Char → Bool} {c : Char} :
    ∀ {l : List Char}, (l.dropWhile p).head? = some c → p c = false
  | [], h => by simp [List.dropWhile] at h
  | a :: l, h => by
    by_cases hp : p a
    · rw [List.dropWhile_cons, if_pos hp] at h
      exact head_dropWhile_false h
    · rw [List.dropWhile_cons, if_neg hp] at h
      simp only [List.head?_cons, Option.some.injEq] at h
      rw [← h]
      exact Bool.of_not_eq_true hp

/-- The last element of a nonempty `dropWhile` is the last of the list. -/
theorem getLast_dropWhile {p : Char → Bool} {c : Char} {l : List Char}
    (h : (l.dropWhile p).getLast? = some c) : l.getLast? = some c := by
  obtain ⟨pre, hpre⟩ := List.dropWhile_suffix p (l := l)
  rw [← hpre, List.getLast?_append, h]
  rfl

/-- A stripped line starts with a non-whitespace character (when nonempty). -/
theorem strip_head {l : List Char} {c : Char} (h : (strip l).head? = some c) :
    c.isWhitespace = false := by
  rw [strip, List.head?_reverse] at h
  have h2 := getLast_dropWhile h
  rw [List.getLast?_reverse] at h2
  exact head_dropWhile_false h2

/-- A stripped line ends with a non-whitespace character (when nonempty). -/
theorem strip_getLast {l : List Char} {c : Char} (h : (strip l).getLast? = some c) :
    c.isWhitespace = false := by
  rw [strip, List.getLast?_reverse] at h
  exact head_dropWhile_false h

/-- A line strips to the empty list exactly when it is all whitespace. -/
theorem strip_eq_nil_iff {l : List Char} :
    strip l = [] ↔ ∀ c ∈ l, c.isWhitespace := by
  rw [strip]
  constructor
  · intro h c hc
    have h2 : (l.dropWhile Char.isWhitespace).reverse.dropWhile Char.isWhitespace = [] := by
      simpa using congrArg List.reverse h
    rw [List.dropWhile_eq_nil_iff] at h2
    by_cases hd : l.dropWhile Char.isWhitespace = []
    · rw [List.dropWhile_eq_nil_iff] at hd
      exact hd c hc
    · obtain ⟨b, m, hbm⟩ := List.exists_cons_of_ne_nil hd
      have hb : Char.isWhitespace b = false := head_dropWhile_false (by rw [hbm]; rfl)
      have : Char.isWhitespace b = true := h2 b (by simp [hbm])
      rw [hb] at this
      exact absurd this (by simp)
  · intro h
    have hd : l.dropWhile Char.isWhitespace = [] :=
      List.dropWhile_eq_nil_iff.mpr h
    simp [hd]

/-- Unfolding of `read_ids` over one line. -/
theorem read_ids_cons (l : List Char) (ls : List (List Char)) :
    read_ids (l :: ls)
      = if (strip l).isEmpty then read_ids ls else strip l :: read_ids ls := by
  rw [read_ids, List.filterMap_cons]
  by_cases he : (strip l).isEmpty
  · simp [he, read_ids]
  · simp [he, read_ids]

/-- Claim C10: every identifier returned by `read_ids` carries no leading or
trailing whitespace, and lines consisting only of whitespace are dropped
(filtering them away beforehand changes nothing). -/
theorem read_ids_strips_whitespace (lines : List (List Char)) :
    (∀ s ∈ read_ids lines,
        (s.head?.all (fun c => !c.isWhitespace)
          && s.getLast?.all (fun c => !c.isWhitespace)) = true)
    ∧ read_ids lines = read_ids (lines.filter (fun l => !l.all Char.isWhitespace)) := by
  constructor
  · intro s hs
    rw [read_ids, List.mem_filterMap] at hs
    obtain ⟨l, hl, hstrip⟩ := hs
    by_cases he : (strip l).isEmpty
    · rw [if_pos he] at hstrip
      exact absurd hstrip (by simp)
    · rw [if_neg he] at hstrip
      have hse : s = strip l := by
        injection hstrip.symm
      subst hse
      rw [Bool.and_eq_true]
      constructor
      · cases hh : (strip l).head? with
        | none => rfl
        | some c => simp [Option.all_some, strip_head hh]
      · cases hh : (strip l).getLast? with
        | none => rfl
        | some c => simp [Option.all_some, strip_getLast hh]
  · induction lines with
    | nil => rfl
    | cons l ls ih =>
      by_cases hws : l.all Char.isWhitespace
      · have hnil : strip l = [] :=
          strip_eq_nil_iff.mpr (by simpa using List.all_eq_true.mp hws)
        simp [read_ids_cons, List.filter_cons, hws, hnil, ih]
      · have hnotnil : strip l ≠ [] := by
          intro hnil
          exact hws (List.all_eq_true.mpr (by simpa using strip_eq_nil_iff.mp hnil))
        simp [read_ids_cons, List.filter_cons, hws, hnotnil, ih]

/-- Witness for C10 on a concrete two-line file: a padded id is stripped and
a whitespace-only line is dropped. -/
theorem read_ids_strips_whitespace_witness :
    ((['a'] : List Char).head?.all (fun c => !c.isWhitespace)
        && (['a'] : List Char).getLast?.all (fun c => !c.isWhitespace)) = true
    ∧ read_ids [[' ', 'a', ' '], [' ']]
        = read_ids ([[' ', 'a', ' '], [' ']].filter (fun l => !l.all Char.isWhitespace)) :=
  ⟨(read_ids_strips_whitespace [[' ', 'a', ' '], [' ']]).1 ['a'] (by decide),
   (read_ids_strips_whitespace [[' ', 'a', ' '], [' ']]).2⟩

/-- A JSON value as produced by `r.json()`.  Numbers are modelled as
integers (the dataset sizes served by the API are integral); objects are
association lists with the (unique) keys of the Python dict in insertion
order. -/
inductive Json where
  | null
  | bool (b : Bool)
  | num (n : Int)
  | str (s : String)
  | arr (elems : List Json)
  | obj (fields : List (String × Json))

/-- Python truthiness of a JSON value (`if size`, `v or 0`). -/
def truthy : Json → Bool
  | .null => false
  | .bool b => b
  | .num n => n != 0
  | .str s => !(s == "")
  | .arr xs => !xs.isEmpty
  | .obj fs => !fs.isEmpty

/-- Python `int(v)`: identity on numbers, 0/1 on booleans, digit parsing on
strings, a `TypeError` (modelled as `Except.error`) on anything else. -/
def pyInt : Json → Except Unit Int
  | .num n => .ok n
  | .bool b => .ok (if b then 1 else 0)
  | .str s =>
    match s.toInt? with
    | some n => .ok n
    | none => .error ()
  | _ => .error ()

/-- The per-config terms of the aggregation generator
`(cfg.get("dataset_size", 0) or 0 for cfg in data.values() if isinstance(cfg, dict))`:
non-dict values are filtered out, a missing key contributes the int 0. -/
def size_terms (fs : List (String × Json)) : List Json :=
  fs.filterMap (fun kv =>
    match kv.2 with
    | .obj cfg => some ((cfg.lookup "dataset_size").getD (.num 0))
    | _ => none)

/-- One step of Python `sum(...)` over the generator: falsy values are
replaced by 0 (`v or 0`); adding a number or a boolean succeeds, adding any
other truthy value raises `TypeError`. -/
def addSize (acc : Except Unit Int) (v : Json) : Except Unit Int :=
  match acc with
  | .error e => .error e
  | .ok a =>
    match (if truthy v then v else .num 0) with
    | .num n => .ok (a + n)
    | .bool b => .ok (a + (if b then 1 else 0))
    | _ => .error ()

/-- Python `sum(cfg.get("dataset_size", 0) or 0 for cfg in data.values() if
isinstance(cfg, dict))`. -/
def sumSizes (fs : List (String × Json)) : Except Unit Int :=
  (size_terms fs).foldl addSize (.ok 0)

/-- Model of the size aggregation of `fetch_size`
(fetch_metadata_dataset_size.py lines 113-131) applied to
`data = r.json().get("dataset_info", {})`: when the key `dataset_size` is
present its value is used directly, otherwise the per-config values are
summed; the resulting record value is `int(size) if size else None`.
Any non-dict `data` raises (`in` / `.get` / `.values()` on a non-dict),
which the caller's blanket `except` turns into a retry. -/
def extract_size (data : Json) : Except Unit (Option Int) :=
  match data with
  | .obj fs =>
    if fs.any (fun kv => kv.1 == "dataset_size") then
      match (fs.lookup "dataset_size").getD .null with
      | v => if truthy v then (pyInt v).map some else .ok none
    else
      match sumSizes fs with
      | .ok n => .ok (if n == 0 then none else some n)
      | .error e => .error e
  | _ => .error ()

/-- The numeric value a well-typed generator term contributes to the sum. -/
def term_val (v : Json) : Int :=
  if truthy v then
    match v with
    | .num n => n
    | _ => 0
  else 0

/-- The sum of the well-typed generator terms. -/
def sumTerms (fs : List (String × Json)) : Int :=
  ((size_terms fs).map term_val).sum

/-- A truthy value that `sum` cannot add to an int (neither number nor
boolean): adding it raises `TypeError`. -/
def nonNumeric : Json → Bool
  | .num _ => false
  | .bool _ => false
  | _ => true

/-- Folding `addSize` over well-typed terms adds up their numeric values. -/
theorem foldl_addSize_ok :
    ∀ (ts : List Json) (a : Int), (∀ v ∈ ts, truthy v = true → ∃ m, v = Json.num m) →
      ts.foldl addSize (.ok a) = .ok (a + (ts.map term_val).sum)
  | [], a, _ => by simp
  | v :: ts, a, h => by
    have hts : ∀ w ∈ ts, truthy w = true → ∃ m, w = Json.num m :=
      fun w hw => h w (List.mem_cons_of_mem _ hw)
    by_cases htr : truthy v = true
    · obtain ⟨m, hm⟩ := h v (List.mem_cons_self _ _) htr
      subst hm
      rw [List.foldl_cons,
        show addSize (.ok a) (Json.num m) = .ok (a + m) by
          simp [addSize, htr],
        foldl_addSize_ok ts (a + m) hts]
      simp [term_val, htr, Int.add_assoc]
    · have htr2 : truthy v = false := by simpa using htr
      rw [List.foldl_cons,
        show addSize (.ok a) v = .ok a by simp [addSize, htr2],
        foldl_addSize_ok ts a hts]
      simp [term_val, htr2]

/-- A raised `TypeError` propagates through the rest of the sum. -/
theorem foldl_addSize_error :
    ∀ ts : List Json, ts.foldl addSize (.error ()) = .error ()
  | [] => rfl
  | v :: ts => by
    rw [List.foldl_cons, show addSize (.error ()) v = .error () from rfl]
    exact foldl_addSize_error ts

/-- A truthy term that is neither number nor boolean raises `TypeError`. -/
theorem foldl_addSize_bad :
    ∀ (ts : List Json) (a : Int), (∃ v ∈ ts, truthy v = true ∧ nonNumeric v = true) →
      ts.foldl addSize (.ok a) = .error ()
  | [], _, h => by simp at h
  | v :: ts, a, h => by
    rcases h with ⟨w, hw, hwt, hwn⟩
    rcases List.mem_cons.mp hw with hwv | hwts
    · subst hwv
      have haddbad : addSize (.ok a) w = .error () := by
        cases w with
        | num n => simp [nonNumeric] at hwn
        | bool b => simp [nonNumeric] at hwn
        | null => simp [truthy] at hwt
        | str s => simp [addSize, hwt]
        | arr xs => simp [addSize, hwt]
        | obj fs => simp [addSize, hwt]
      rw [List.foldl_cons, haddbad]
      exact foldl_addSize_error ts
    · rw [List.foldl_cons]
      cases hstep : addSize (.ok a) v with
      | error e => rw [show e = () from rfl]; exact foldl_addSize_error ts
      | ok b => exact foldl_addSize_bad ts b ⟨w, hwts, hwt, hwn⟩

/-- Claim C6 (amended): when the response object reports `dataset_size`
directly with a numeric value it is used (null when zero); a direct falsy
value reports null; otherwise the per-config values are summed, where a
missing or falsy `dataset_size` counts as zero and non-dict configs are
skipped — but a truthy non-numeric per-config value makes the attempt raise
(and hence retry) instead of counting as zero. -/
theorem extract_size_aggregation (fs : List (String × Json)) (n : Int) :
    ((fs.any fun kv => kv.1 == "dataset_size") = true →
       fs.lookup "dataset_size" = some (.num n) →
       extract_size (.obj fs) = .ok (if n = 0 then none else some n))
    ∧ (∀ v, (fs.any fun kv => kv.1 == "dataset_size") = true →
       fs.lookup "dataset_size" = some v → truthy v = false →
       extract_size (.obj fs) = .ok none)
    ∧ ((fs.any fun kv => kv.1 == "dataset_size") = false →
       (∀ v ∈ size_terms fs, truthy v = true → ∃ m, v = Json.num m) →
       extract_size (.obj fs) = .ok (if sumTerms fs = 0 then none else some (sumTerms fs)))
    ∧ ((fs.any fun kv => kv.1 == "dataset_size") = false →
       (∃ v ∈ size_terms fs, truthy v = true ∧ nonNumeric v = true) →
       extract_size (.obj fs) = .error ()) := by
  refine ⟨?_, ?_, ?_, ?_⟩
  · intro hany hlook
    rw [extract_size, if_pos hany, hlook]
    by_cases hz : n = 0
    · subst hz
      simp [truthy]
    · have : truthy (Json.num n) = true := by simp [truthy, hz]
      simp [this, pyInt, hz, Except.map]
  · intro v hany hlook hfalsy
    rw [extract_size, if_pos hany, hlook]
    simp [hfalsy]
  · intro hany hwt
    rw [extract_size, if_neg (by simp [hany])]
    rw [show sumSizes fs = .ok (sumTerms fs) by
      rw [sumSizes, foldl_addSize_ok (size_terms fs) 0 hwt, sumTerms]
      simp]
    by_cases hz : sumTerms fs = 0
    · simp [hz]
    · simp [hz]
  · intro hany hbad
    rw [extract_size, if_neg (by simp [hany])]
    rw [show sumSizes fs = .error () from foldl_addSize_bad (size_terms fs) 0 hbad]

/-- Counterexample to claim C6 as stated: a config whose `dataset_size` is
the string "n/a" (truthy, non-numeric) is not treated as zero — the
aggregation raises `TypeError` instead of reporting null. -/
theorem extract_size_nonnumeric_counterexample :
    extract_size (.obj [("cfgA", .obj [("dataset_size", .str "n/a")])]) = .error ()
    ∧ (Except.error () : Except Unit (Option Int)) ≠ .ok none :=
  ⟨rfl, fun h => nomatch h⟩

/-- Witness for the amended C6 on a concrete response: two configs, one of
size 10 and one with the key missing, sum to 10. -/
theorem extract_size_aggregation_witness :
    extract_size (.obj [("cfgA", .obj [("dataset_size", .num 10)]), ("cfgB", .obj [])])
      = .ok (if sumTerms [("cfgA", .obj [("dataset_size", .num 10)]), ("cfgB", .obj [])] = 0
             then none
             else some (sumTerms [("cfgA", .obj [("dataset_size", .num 10)]), ("cfgB", .obj [])])) :=
  (extract_size_aggregation
      [("cfgA", .obj [("dataset_size", .num 10)]), ("cfgB", .obj [])] 0).2.2.1
    rfl
    (by
      intro v hv _
      rw [show size_terms [("cfgA", Json.obj [("dataset_size", Json.num 10)]), ("cfgB", Json.obj [])]
            = [Json.num 10, Json.num 0] from rfl] at hv
      rcases List.mem_cons.mp hv with h10 | hv2
      · exact ⟨10, h10⟩
      · rcases List.mem_cons.mp hv2 with h0 | hnil
        · exact ⟨0, h0⟩
        · exact absurd hnil (List.not_mem_nil v))

/-- The outcome the remote service produces for one attempt: a transport
error raised by `http.get` (timeout, connection failure), or an HTTP
response with a status code and a body (`none` when `r.json()` fails to
parse it). -/
inductive Outcome where
  | exn
  | response (code : Nat) (body : Option Json)

/-- The retried status codes: `r.status_code in (429, 500, 502, 503, 504)`. -/
def retryable (code : Nat) : Bool :=
  code == 429 || code == 500 || code == 502 || code == 503 || code == 504

/-- Observable events of one fetch: an HTTP request issued, a backoff sleep
of the given number of time units, or a politeness sleep whose duration is
the configured base times the recorded factor. -/
inductive Ev where
  | request
  | backoffSleep (units : Nat)
  | politeSleep (factor : ℚ)

/-- The jitter factor of `polite_sleep`: `0.9 + 0.4 * random.random()`. -/
def polite_factor (u : ℚ) : ℚ := 9 / 10 + 2 / 5 * u

/-- Model of `polite_sleep` (fetch_metadata_dataset_size.py lines 50-52,
fetch_metadata_replevel.py lines 49-51): sleeps only when the configured
base delay is positive, for `base * polite_factor u` where `u` is the
process's random draw.  `called` records whether the code path reached the
`polite_sleep()` call at all. -/
def politeEvs (base u : ℚ) (called : Bool) : List Ev :=
  if called ∧ 0 < base then [.politeSleep (polite_factor u)] else []

/-- How one attempt of the retry loop ends: a caught failure that sleeps the
backoff and retries, an uncaught exception escaping the fetch function, or a
success returning the extracted payload.  `called` records whether
`polite_sleep()` ran during the attempt (it runs before the payload
handling that may still fail). -/
inductive Step (ρ : Type) where
  | retry (called : Bool)
  | escape
  | success (called : Bool) (payload : ρ)

/-- The shared retry skeleton of `fetch_size` and `fetch_rest`:
`backoff = 1.0; for _ in range(cap): ...` with
`time.sleep(backoff); backoff = min(backoff * 2, 30)` after every caught
failure, and the error fall-through after the loop (`none` payload).
`step i` classifies attempt `i` from the remote outcome; `fuel` counts the
remaining loop iterations; `b` is the current backoff. -/
def run_fetch {ρ : Type} (step : Nat → Step ρ) (base u : ℚ) :
    Nat → Nat → Nat → Except Unit (Option ρ × List Ev)
  | 0, _, _ => .ok (none, [])
  | fuel + 1, i, b =>
    match step i with
    | .escape => .error ()
    | .success called payload => .ok (some payload, Ev.request :: politeEvs base u called)
    | .retry called =>
      match run_fetch step base u fuel (i + 1) (min (2 * b) 30) with
      | .error e => .error e
      | .ok (res, tr) =>
        .ok (res, Ev.request :: (politeEvs base u called ++ Ev.backoffSleep b :: tr))

/-- Classification of one attempt of `fetch_size`
(fetch_metadata_dataset_size.py lines 102-142).  A retryable status sleeps
and continues; `r.raise_for_status()` raises `HTTPError` exactly on the
statuses in [400, 600) (any other status, e.g. one of at least 600, is not
raised and its body is processed as on a 2xx); an unparseable body raises
in `r.json()`; `.get` on a non-dict body raises — all these land in the
blanket `except Exception` and retry.
When `data` is extracted, `polite_sleep()` runs, and then the aggregation
itself may still raise (caught, retried). -/
def step_size (oc : Nat → Outcome) (i : Nat) : Step (Option Int) :=
  match oc i with
  | .exn => .retry false
  | .response code body =>
    if retryable code then .retry false
    else if 400 ≤ code ∧ code < 600 then .retry false
    else
      match body with
      | none => .retry false
      | some js =>
        match js with
        | .obj jfs =>
          match extract_size ((jfs.lookup "dataset_info").getD (.obj [])) with
          | .ok sz => .success true sz
          | .error _ => .retry true
        | _ => .retry false

/-- Model of `tags = js.get("tags") or []` followed by
`[t for t in tags if not t.startswith("language:")]` and `tags.sort()`
(fetch_metadata_replevel.py lines 123-126): iterating a truthy non-iterable
or calling `startswith` on a non-string raises an error that the narrow
`except requests.RequestException` of `fetch_rest` does not catch. -/
def tags_check (jfs : List (String × Json)) : Except Unit Unit :=
  match (if truthy ((jfs.lookup "tags").getD .null)
         then (jfs.lookup "tags").getD .null else .arr []) with
  | .arr xs =>
    if xs.all (fun t => match t with | .str _ => true | _ => false) then .ok ()
    else .error ()
  | .str _ => .ok ()
  | .obj _ => .ok ()
  | _ => .error ()

/-- Classification of one attempt of `fetch_rest`
(fetch_metadata_replevel.py lines 107-150).  The except clause catches only
`requests.RequestException`: retryable statuses, transport errors,
`raise_for_status` and (with requests >= 2.27) `r.json()` parse failures
retry, but `.get` on a body that parses to a non-dict, or the tags handling
on malformed tags, raises past the fetch boundary (`Step.escape`).  The
payload returned on success is the parsed object's field list. -/
def step_rest (oc : Nat → Outcome) (i : Nat) : Step (List (String × Json)) :=
  match oc i with
  | .exn => .retry false
  | .response code body =>
    if retryable code then .retry false
    else if 400 ≤ code ∧ code < 600 then .retry false
    else
      match body with
      | none => .retry false
      | some js =>
        match js with
        | .obj jfs =>
          match tags_check jfs with
          | .ok _ => .success true jfs
          | .error _ => .escape
        | _ => .escape

/-- Model of `fetch_size(repo_id)`: the retry loop runs `range(5)` attempts
starting from backoff 1; on success the record is
`{id, dataset_size_bytes, status: "ok"}`, after the loop it is the error
record.  `.error ()` models an exception escaping `fetch_size` (this never
happens: the except clause is `except Exception`). -/
def fetch_size (repo_id : String) (oc : Nat → Outcome) (base u : ℚ) :
    Except Unit (SizeRecord × List Ev) :=
  (run_fetch (step_size oc) base u 5 0 1).map (fun p =>
    match p with
    | (some sz, tr) => (⟨repo_id, sz, "ok"⟩, tr)
    | (none, tr) => (⟨repo_id, none, "error"⟩, tr))

/-- A record row of fetch_metadata_replevel.py (the `fetch_timestamp`
column is not modelled; `tags` is computed but commented out of the row). -/
structure RestRecord where
  id : String
  created_at : Option Json
  last_modified : Option Json
  downloads_30d : Option Json
  downloads_all_time : Option Json
  trending_score : Option Json
  likes : Option Json
  used_storage : Option Json
  status : String
  error_message : Option String

/-- Model of `fetch_rest(repo_id)`: the retry loop runs `range(6)` attempts
starting from backoff 1; on success the record carries the expanded fields
looked up in the parsed object (`js.get(...)`), after the loop it is the
error record with its `error_message`.  `.error ()` models an exception
escaping `fetch_rest` (possible: the except clause catches only
`requests.RequestException`). -/
def fetch_rest (repo_id : String) (oc : Nat → Outcome) (base u : ℚ) :
    Except Unit (RestRecord × List Ev) :=
  (run_fetch (step_rest oc) base u 6 0 1).map (fun p =>
    match p with
    | (some jfs, tr) =>
      (⟨repo_id, jfs.lookup "createdAt", jfs.lookup "lastModified",
        jfs.lookup "downloads", jfs.lookup "downloadsAllTime",
        jfs.lookup "trendingScore", jfs.lookup "likes",
        jfs.lookup "usedStorage", "ok", none⟩, tr)
    | (none, tr) =>
      (⟨repo_id, none, none, none, none, none, none, none, "error",
        some ("REST failed after retries for " ++ repo_id)⟩, tr))

/-- The number of HTTP requests recorded in a trace. -/
def requests (tr : List Ev) : Nat :=
  (tr.filter (fun e => match e with | .request => true | _ => false)).length

/-- The politeness-sleep factors recorded in a trace, in order. -/
def politeFactors (tr : List Ev) : List ℚ :=
  tr.filterMap (fun e => match e with | .politeSleep f => some f | _ => none)

/-- The backoff sleep durations recorded in a trace, in order. -/
def backoffs (tr : List Ev) : List Nat :=
  tr.filterMap (fun e => match e with | .backoffSleep d => some d | _ => none)

theorem requests_append (t1 t2 : List Ev) :
    requests (t1 ++ t2) = requests t1 + requests t2 := by
  simp [requests, List.filter_append]

theorem politeFactors_append (t1 t2 : List Ev) :
    politeFactors (t1 ++ t2) = politeFactors t1 ++ politeFactors t2 := by
  simp [politeFactors, List.filterMap_append]

theorem backoffs_append (t1 t2 : List Ev) :
    backoffs (t1 ++ t2) = backoffs t1 ++ backoffs t2 := by
  simp [backoffs, List.filterMap_append]

theorem requests_politeEvs (base u : ℚ) (c : Bool) :
    requests (politeEvs base u c) = 0 := by
  rw [politeEvs]
  split
  · rfl
  · rfl

theorem backoffs_politeEvs (base u : ℚ) (c : Bool) :
    backoffs (politeEvs base u c) = [] := by
  rw [politeEvs]
  split
  · rfl
  · rfl

theorem politeEvs_false (base u : ℚ) : politeEvs base u false = [] := by
  rw [politeEvs]
  split
  · simp_all
  · rfl

/-- If every attempt of the loop fails before `polite_sleep` is reached, the
loop exhausts its fuel: the fetch returns the error payload after exactly
`fuel` requests and no politeness sleep. -/
theorem run_fetch_all_retry {ρ : Type} (step : Nat → Step ρ) (base u : ℚ) :
    ∀ (fuel i b : Nat), (∀ j, j < fuel → step (i + j) = .retry false) →
      ∃ tr, run_fetch step base u fuel i b = .ok (none, tr)
        ∧ requests tr = fuel ∧ politeFactors tr = []
  | 0, _, _, _ => ⟨[], rfl, rfl, rfl⟩
  | fuel + 1, i, b, h => by
    have h0 : step i = .retry false := by
      have h1 := h 0 (Nat.succ_pos fuel)
      simpa using h1
    obtain ⟨tr, htr, hreq, hpol⟩ :=
      run_fetch_all_retry step base u fuel (i + 1) (min (2 * b) 30)
        (fun j hj => by
          have h2 := h (j + 1) (by omega)
          rwa [show i + (j + 1) = i + 1 + j by omega] at h2)
    refine ⟨Ev.request :: (politeEvs base u false ++ Ev.backoffSleep b :: tr), ?_, ?_, ?_⟩
    · simp only [run_fetch]
      rw [h0, htr]
    · rw [show Ev.request :: (politeEvs base u false ++ Ev.backoffSleep b :: tr)
          = [Ev.request] ++ politeEvs base u false ++ [Ev.backoffSleep b] ++ tr by simp,
        requests_append, requests_append, requests_append, requests_politeEvs, hreq]
      have e1 : requests [Ev.request] = 1 := rfl
      have e2 : requests [Ev.backoffSleep b] = 0 := rfl
      omega
    · rw [politeEvs_false]
      simp only [List.nil_append]
      rw [show Ev.request :: Ev.backoffSleep b :: tr
          = [Ev.request, Ev.backoffSleep b] ++ tr by simp,
        politeFactors_append, hpol]
      rfl

/-- When no attempt can escape, the fetch always returns a record. -/
theorem run_fetch_total {ρ : Type} (step : Nat → Step ρ)
    (hstep : ∀ i, step i ≠ .escape) (base u : ℚ) :
    ∀ (fuel i b : Nat), ∃ p, run_fetch step base u fuel i b = .ok p
  | 0, _, _ => ⟨(none, []), rfl⟩
  | fuel + 1, i, b => by
    cases hs : step i with
    | escape => exact absurd hs (hstep i)
    | success called payload =>
      refine ⟨(some payload, Ev.request :: politeEvs base u called), ?_⟩
      simp only [run_fetch]
      rw [hs]
    | retry called =>
      obtain ⟨⟨res, tr⟩, hrun⟩ :=
        run_fetch_total step hstep base u fuel (i + 1) (min (2 * b) 30)
      refine ⟨(res, Ev.request :: (politeEvs base u called ++ Ev.backoffSleep b :: tr)), ?_⟩
      simp only [run_fetch]
      rw [hs, hrun]

/-- The backoff value before the `k`-th retry. -/
def nb (j : Nat) : Nat := min (2 ^ j) 30

theorem nb_step (j : Nat) : min (2 * nb j) 30 = nb (j + 1) := by
  simp only [nb, pow_succ]
  omega

/-- Whatever the remote does, the successive backoff sleeps of one fetch
follow the doubled-and-capped schedule `min (2^k) 30`. -/
theorem run_fetch_backoffs {ρ : Type} (step : Nat → Step ρ) (base u : ℚ) :
    ∀ (fuel i j : Nat) (res : Option ρ) (tr : List Ev),
      run_fetch step base u fuel i (nb j) = .ok (res, tr) →
      ∀ k, k < (backoffs tr).length → (backoffs tr).getD k 0 = nb (j + k)
  | 0, i, j, res, tr, h => by
    simp only [run_fetch] at h
    injection h with h
    injection h with h1 h2
    subst h2
    intro k hk
    simp [backoffs] at hk
  | fuel + 1, i, j, res, tr, h => by
    rw [show run_fetch step base u (fuel + 1) i (nb j)
        = match step i with
          | .escape => .error ()
          | .success called payload =>
            .ok (some payload, Ev.request :: politeEvs base u called)
          | .retry called =>
            match run_fetch step base u fuel (i + 1) (min (2 * nb j) 30) with
            | .error e => .error e
            | .ok (res, tr) =>
              .ok (res, Ev.request :: (politeEvs base u called ++ Ev.backoffSleep (nb j) :: tr))
        from rfl] at h
    cases hs : step i with
    | escape =>
      rw [hs] at h
      exact absurd h (by simp)
    | success called payload =>
      rw [hs] at h
      injection h with h
      injection h with h1 h2
      subst h2
      intro k hk
      rw [show Ev.request :: politeEvs base u called
          = [Ev.request] ++ politeEvs base u called by simp,
        backoffs_append, backoffs_politeEvs] at hk
      simp [backoffs] at hk
    | retry called =>
      rw [hs, nb_step] at h
      cases hrun : run_fetch step base u fuel (i + 1) (nb (j + 1)) with
      | error e =>
        rw [hrun] at h
        exact absurd h (by simp)
      | ok p =>
        rcases p with ⟨res2, tr2⟩
        rw [hrun] at h
        injection h with h
        injection h with h1 h2
        subst h2
        have hback : backoffs (Ev.request :: (politeEvs base u called ++ Ev.backoffSleep (nb j) :: tr2))
            = nb j :: backoffs tr2 := by
          rw [show Ev.request :: (politeEvs base u called ++ Ev.backoffSleep (nb j) :: tr2)
              = [Ev.request] ++ politeEvs base u called ++ [Ev.backoffSleep (nb j)] ++ tr2 by simp,
            backoffs_append, backoffs_append, backoffs_append, backoffs_politeEvs]
          rfl
        rw [hback]
        intro k hk
        cases k with
        | zero => rfl
        | succ m =>
          rw [List.getD_cons_succ,
            run_fetch_backoffs step base u fuel (i + 1) (j + 1) res2 tr2 hrun m
              (by simpa [hback] using Nat.lt_of_succ_lt_succ (by simpa using hk)),
            show j + 1 + m = j + (m + 1) by omega]

/-- Every politeness factor recorded in a trace equals `polite_factor u`:
the jitter is a function of the random draw alone, independent of the
backoff state. -/
theorem run_fetch_factors {ρ : Type} (step : Nat → Step ρ) (base u : ℚ) :
    ∀ (fuel i b : Nat) (res : Option ρ) (tr : List Ev),
      run_fetch step base u fuel i b = .ok (res, tr) →
      ∀ q ∈ politeFactors tr, q = polite_factor u
  | 0, i, b, res, tr, h => by
    simp only [run_fetch] at h
    injection h with h
    injection h with h1 h2
    subst h2
    intro q hq
    simp [politeFactors] at hq
  | fuel + 1, i, b, res, tr, h => by
    simp only [run_fetch] at h
    cases hs : step i with
    | escape =>
      rw [hs] at h
      exact absurd h (by simp)
    | success called payload =>
      rw [hs] at h
      injection h with h
      injection h with h1 h2
      subst h2
      intro q hq
      rw [show Ev.request :: politeEvs base u called
          = [Ev.request] ++ politeEvs base u called by simp,
        politeFactors_append] at hq
      rw [politeEvs] at hq
      rcases List.mem_append.mp hq with hq1 | hq2
      · simp [politeFactors] at hq1
      · split at hq2
        · simp only [politeFactors, List.filterMap] at hq2
          simpa using hq2
        · simp [politeFactors] at hq2
    | retry called =>
      rw [hs] at h
      cases hrun : run_fetch step base u fuel (i + 1) (min (2 * b) 30) with
      | error e =>
        rw [hrun] at h
        exact absurd h (by simp)
      | ok p =>
        rcases p with ⟨res2, tr2⟩
        rw [hrun] at h
        injection h with h
        injection h with h1 h2
        subst h2
        intro q hq
        rw [show Ev.request :: (politeEvs base u called ++ Ev.backoffSleep b :: tr2)
            = [Ev.request] ++ politeEvs base u called ++ [Ev.backoffSleep b] ++ tr2 by simp,
          politeFactors_append, politeFactors_append, politeFactors_append] at hq
        rcases List.mem_append.mp hq with hq1 | hq2
        · rcases List.mem_append.mp hq1 with hq3 | hq4
          · rcases List.mem_append.mp hq3 with hq5 | hq6
            · simp [politeFactors] at hq5
            · rw [politeEvs] at hq6
              split at hq6
              · simp only [politeFactors, List.filterMap] at hq6
                simpa using hq6
              · simp [politeFactors] at hq6
          · simp [politeFactors] at hq4
        · exact run_fetch_factors step base u fuel (i + 1) (min (2 * b) 30) res2 tr2 hrun q hq2

/-- A run that ends in a success has recorded a politeness sleep, provided
every success step called `polite_sleep` and the base delay is positive. -/
theorem run_fetch_success_polite {ρ : Type} (step : Nat → Step ρ)
    (hsucc : ∀ i c payload, step i = .success c payload → c = true)
    (base u : ℚ) (hbase : 0 < base) :
    ∀ (fuel i b : Nat) (payload : ρ) (tr : List Ev),
      run_fetch step base u fuel i b = .ok (some payload, tr) →
      politeFactors tr ≠ []
  | 0, i, b, payload, tr, h => by
    simp only [run_fetch] at h
    injection h with h
    injection h with h1 h2
    exact absurd h1 (by simp)
  | fuel + 1, i, b, payload, tr, h => by
    simp only [run_fetch] at h
    cases hs : step i with
    | escape =>
      rw [hs] at h
      exact absurd h (by simp)
    | success called payload2 =>
      have hc : called = true := hsucc i called payload2 hs
      subst hc
      rw [hs] at h
      injection h with h
      injection h with h1 h2
      subst h2
      rw [show Ev.request :: politeEvs base u true
          = [Ev.request] ++ politeEvs base u true by simp,
        politeFactors_append, politeEvs, if_pos ⟨rfl, hbase⟩]
      simp [politeFactors]
    | retry called =>
      rw [hs] at h
      cases hrun : run_fetch step base u fuel (i + 1) (min (2 * b) 30) with
      | error e =>
        rw [hrun] at h
        exact absurd h (by simp)
      | ok p =>
        rcases p with ⟨res2, tr2⟩
        rw [hrun] at h
        injection h with h
        injection h with h1 h2
        subst h1
        subst h2
        have hne := run_fetch_success_polite step hsucc base u hbase fuel (i + 1)
          (min (2 * b) 30) payload tr2 hrun
        rw [show Ev.request :: (politeEvs base u called ++ Ev.backoffSleep b :: tr2)
            = ([Ev.request] ++ politeEvs base u called ++ [Ev.backoffSleep b]) ++ tr2 by simp,
          politeFactors_append]
        intro hcontra
        exact hne (List.append_eq_nil.mp hcontra).2

/-- A `fetch_size` attempt either retries, or succeeds having called
`polite_sleep`; it never escapes (the except clause is `except Exception`). -/
theorem step_size_shape (oc : Nat → Outcome) (i : Nat) :
    step_size oc i = .retry false ∨ step_size oc i = .retry true
    ∨ ∃ sz, step_size oc i = .success true sz := by
  cases hoc : oc i with
  | exn => simp [step_size, hoc]
  | response code body =>
    simp only [step_size, hoc]
    by_cases h1 : retryable code
    · rw [if_pos h1]
      exact Or.inl rfl
    · rw [if_neg h1]
      by_cases h2 : 400 ≤ code ∧ code < 600
      · rw [if_pos h2]
        exact Or.inl rfl
      · rw [if_neg h2]
        cases body with
        | none => exact Or.inl rfl
        | some js =>
          cases js with
          | obj jfs =>
            cases hext : extract_size ((jfs.lookup "dataset_info").getD (.obj [])) with
            | ok sz => exact Or.inr (Or.inr ⟨sz, by simp only [hext]⟩)
            | error e => exact Or.inr (Or.inl (by simp only [hext]))
          | null => exact Or.inl rfl
          | bool b => exact Or.inl rfl
          | num n => exact Or.inl rfl
          | str s => exact Or.inl rfl
          | arr xs => exact Or.inl rfl

theorem step_size_ne_escape (oc : Nat → Outcome) (i : Nat) :
    step_size oc i ≠ .escape := by
  rcases step_size_shape oc i with h | h | ⟨sz, h⟩ <;> simp [h]

theorem step_size_success_called (oc : Nat → Outcome) (i : Nat) (c : Bool)
    (p : Option Int) (h : step_size oc i = .success c p) : c = true := by
  rcases step_size_shape oc i with h2 | h2 | ⟨sz, h2⟩ <;> rw [h2] at h
  · exact absurd h (by simp)
  · exact absurd h (by simp)
  · injection h with hc hp
    exact hc.symm

/-- A `fetch_rest` attempt retries, escapes, or succeeds having called
`polite_sleep`. -/
theorem step_rest_shape (oc : Nat → Outcome) (i : Nat) :
    step_rest oc i = .retry false ∨ step_rest oc i = .escape
    ∨ ∃ jfs, step_rest oc i = .success true jfs := by
  cases hoc : oc i with
  | exn => simp [step_rest, hoc]
  | response code body =>
    simp only [step_rest, hoc]
    by_cases h1 : retryable code
    · rw [if_pos h1]
      exact Or.inl rfl
    · rw [if_neg h1]
      by_cases h2 : 400 ≤ code ∧ code < 600
      · rw [if_pos h2]
        exact Or.inl rfl
      · rw [if_neg h2]
        cases body with
        | none => exact Or.inl rfl
        | some js =>
          cases js with
          | obj jfs =>
            cases htag : tags_check jfs with
            | ok a => exact Or.inr (Or.inr ⟨jfs, by simp only [htag]⟩)
            | error e => exact Or.inr (Or.inl (by simp only [htag]))
          | null => exact Or.inr (Or.inl rfl)
          | bool b => exact Or.inr (Or.inl rfl)
          | num n => exact Or.inr (Or.inl rfl)
          | str s => exact Or.inr (Or.inl rfl)
          | arr xs => exact Or.inr (Or.inl rfl)

theorem step_rest_success_called (oc : Nat → Outcome) (i : Nat) (c : Bool)
    (p : List (String × Json)) (h : step_rest oc i = .success c p) : c = true := by
  rcases step_rest_shape oc i with h2 | h2 | ⟨jfs, h2⟩ <;> rw [h2] at h
  · exact absurd h (by simp)
  · exact absurd h (by simp)
  · injection h with hc hp
    exact hc.symm

/-- A 503 status is in the retryable set: the attempt sleeps and retries. -/
theorem step_size_503 (oc : Nat → Outcome) (i : Nat) (body : Option Json)
    (h : oc i = .response 503 body) : step_size oc i = .retry false := by
  unfold step_size
  rw [h]
  rfl

theorem step_rest_503 (oc : Nat → Outcome) (i : Nat) (body : Option Json)
    (h : oc i = .response 503 body) : step_rest oc i = .retry false := by
  unfold step_rest
  rw [h]
  rfl

/-- A "permanent" outcome in the sense of the spec, restricted to what the
code actually raises: a non-retryable status in [400, 600), or an
unparseable body.  A non-2xx status outside [400, 600) with a parseable
body is not raised by `raise_for_status` and proceeds like a success, so
it is excluded here. -/
def permanent (o : Outcome) : Bool :=
  match o with
  | .exn => false
  | .response code body =>
    !retryable code && (decide (400 ≤ code ∧ code < 600) || body.isNone)

/-- A permanent outcome is caught by the except clause and retried. -/
theorem step_size_permanent (oc : Nat → Outcome) (i : Nat)
    (h : permanent (oc i) = true) : step_size oc i = .retry false := by
  cases hoc : oc i with
  | exn =>
    rw [hoc] at h
    simp [permanent] at h
  | response code body =>
    rw [hoc] at h
    simp only [step_size, hoc]
    simp only [permanent, Bool.and_eq_true, Bool.or_eq_true, Bool.not_eq_true'] at h
    obtain ⟨hret, hrest⟩ := h
    rw [if_neg (by simp [hret])]
    rcases hrest with h4 | hbody
    · rw [if_pos (of_decide_eq_true h4)]
    · cases body with
      | none =>
        split
        · rfl
        · rfl
      | some js => simp [Option.isNone] at hbody

theorem step_rest_permanent (oc : Nat → Outcome) (i : Nat)
    (h : permanent (oc i) = true) : step_rest oc i = .retry false := by
  cases hoc : oc i with
  | exn =>
    rw [hoc] at h
    simp [permanent] at h
  | response code body =>
    rw [hoc] at h
    simp only [step_rest, hoc]
    simp only [permanent, Bool.and_eq_true, Bool.or_eq_true, Bool.not_eq_true'] at h
    obtain ⟨hret, hrest⟩ := h
    rw [if_neg (by simp [hret])]
    rcases hrest with h4 | hbody
    · rw [if_pos (of_decide_eq_true h4)]
    · cases body with
      | none =>
        split
        · rfl
        · rfl
      | some js => simp [Option.isNone] at hbody

/-- `fetch_size` is a projection of the underlying retry loop: its trace is
the loop's trace. -/
theorem fetch_size_run {r : String} {oc : Nat → Outcome} {base u : ℚ}
    {rec : SizeRecord} {tr : List Ev}
    (h : fetch_size r oc base u = .ok (rec, tr)) :
    ∃ res, run_fetch (step_size oc) base u 5 0 1 = .ok (res, tr) := by
  rw [fetch_size] at h
  cases hrun : run_fetch (step_size oc) base u 5 0 1 with
  | error e =>
    rw [hrun] at h
    exact absurd h (by simp [Except.map])
  | ok p =>
    rcases p with ⟨res, tr0⟩
    rw [hrun] at h
    refine ⟨res, ?_⟩
    cases res with
    | none =>
      simp only [Except.map] at h
      injection h with hpair
      have h2 : tr0 = tr := congrArg Prod.snd hpair
      rw [h2]
    | some sz =>
      simp only [Except.map] at h
      injection h with hpair
      have h2 : tr0 = tr := congrArg Prod.snd hpair
      rw [h2]

theorem fetch_rest_run {r : String} {oc : Nat → Outcome} {base u : ℚ}
    {rec : RestRecord} {tr : List Ev}
    (h : fetch_rest r oc base u = .ok (rec, tr)) :
    ∃ res, run_fetch (step_rest oc) base u 6 0 1 = .ok (res, tr) := by
  rw [fetch_rest] at h
  cases hrun : run_fetch (step_rest oc) base u 6 0 1 with
  | error e =>
    rw [hrun] at h
    exact absurd h (by simp [Except.map])
  | ok p =>
    rcases p with ⟨res, tr0⟩
    rw [hrun] at h
    refine ⟨res, ?_⟩
    cases res with
    | none =>
      simp only [Except.map] at h
      injection h with hpair
      have h2 : tr0 = tr := congrArg Prod.snd hpair
      rw [h2]
    | some jfs =>
      simp only [Except.map] at h
      injection h with hpair
      have h2 : tr0 = tr := congrArg Prod.snd hpair
      rw [h2]

/-- Claim C4 (amended): an endpoint answering 503 on every attempt makes
`fetch_size` issue exactly 5 requests (its attempt cap) and `fetch_rest`
exactly 6, each then returning one `status=error` record; `fetch_size`
never raises past its boundary for any sequence of remote outcomes
(`fetch_rest` can: see the counterexample). -/
theorem fetch_attempt_cap_and_totality (r : String) (oc : Nat → Outcome) (base u : ℚ) :
    ((∀ j, j < 5 → ∃ body, oc j = .response 503 body) →
       ∃ tr, fetch_size r oc base u = .ok (⟨r, none, "error"⟩, tr) ∧ requests tr = 5)
    ∧ ((∀ j, j < 6 → ∃ body, oc j = .response 503 body) →
       ∃ tr, fetch_rest r oc base u
           = .ok (⟨r, none, none, none, none, none, none, none, "error",
                   some ("REST failed after retries for " ++ r)⟩, tr)
         ∧ requests tr = 6)
    ∧ ∃ p, fetch_size r oc base u = .ok p := by
  refine ⟨?_, ?_, ?_⟩
  · intro h
    obtain ⟨tr, htr, hreq, _⟩ :=
      run_fetch_all_retry (step_size oc) base u 5 0 1
        (fun j hj => by
          obtain ⟨body, hb⟩ := h j hj
          exact step_size_503 oc (0 + j) body (by rwa [Nat.zero_add]))
    refine ⟨tr, ?_, hreq⟩
    rw [fetch_size, htr]
    rfl
  · intro h
    obtain ⟨tr, htr, hreq, _⟩ :=
      run_fetch_all_retry (step_rest oc) base u 6 0 1
        (fun j hj => by
          obtain ⟨body, hb⟩ := h j hj
          exact step_rest_503 oc (0 + j) body (by rwa [Nat.zero_add]))
    refine ⟨tr, ?_, hreq⟩
    rw [fetch_rest, htr]
    rfl
  · obtain ⟨⟨res, tr⟩, hrun⟩ :=
      run_fetch_total (step_size oc) (step_size_ne_escape oc) base u 5 0 1
    cases res with
    | none => exact ⟨(⟨r, none, "error"⟩, tr), by rw [fetch_size, hrun]; rfl⟩
    | some sz => exact ⟨(⟨r, sz, "ok"⟩, tr), by rw [fetch_size, hrun]; rfl⟩

/-- Witness for the amended C4: the all-503 endpoint drives `fetch_size`
through its 5 attempts into one error record. -/
theorem fetch_attempt_cap_and_totality_witness :
    ∃ tr, fetch_size "d" (fun _ => .response 503 none) 0 0
        = .ok (⟨"d", none, "error"⟩, tr) ∧ requests tr = 5 :=
  (fetch_attempt_cap_and_totality "d" (fun _ => .response 503 none) 0 0).1
    (fun j hj => ⟨none, rfl⟩)

/-- Counterexample to claim C4 as stated: a 2xx response whose body parses
to a JSON array makes `js.get(...)` raise `AttributeError`, which the
narrow `except requests.RequestException` of `fetch_rest` does not catch —
the exception escapes the fetch boundary instead of producing a record. -/
theorem fetch_rest_escape_counterexample :
    fetch_rest "d" (fun _ => .response 200 (some (.arr []))) 1 0 = .error ()
    ∧ (fetch_rest "d" (fun _ => .response 200 (some (.arr []))) 1 0).toOption = none := by
  constructor
  · rfl
  · rfl

/-- Counterexample to claim C2 as stated: a permanent outcome (HTTP 404 on
every attempt) does not stop the fetcher after one request — `fetch_size`
issues all 5 requests before returning the error record. -/
theorem fetch_permanent_stop_counterexample :
    (fetch_size "d" (fun _ => .response 404 none) 0 0).map
        (fun p => (p.1.status, requests p.2)) = .ok ("error", 5)
    ∧ (5 : Nat) ≠ 1 := by
  constructor
  · rfl
  · decide

/-- Starting the loop on a successful classification returns at once. -/
theorem run_fetch_success_first {ρ : Type} (step : Nat → Step ρ) (base u : ℚ)
    (fuel b : Nat) (c : Bool) (p : ρ) (hstep : step 0 = .success c p) :
    run_fetch step base u (fuel + 1) 0 b
      = .ok (some p, Ev.request :: politeEvs base u c) := by
  simp only [run_fetch]
  rw [hstep]

/-- Claim C2 (amended): a permanent outcome — a non-retryable status in
[400, 600) (what `raise_for_status` actually raises), or an unparseable
body — does not stop the retry loop: the raised error is caught like a
transient failure, the backoff sleep runs, and the fetcher retries until
the attempt cap, then returns `status=error` (with no politeness sleep,
since the body handling is never reached).  A non-retryable status outside
[400, 600) is not raised at all: with a parseable object body, the fetcher
returns an ok record after a single request. -/
theorem fetch_permanent_retried (r : String) (oc : Nat → Outcome) (base u : ℚ) :
    ((∀ j, j < 5 → permanent (oc j) = true) →
       ∃ tr, fetch_size r oc base u = .ok (⟨r, none, "error"⟩, tr)
         ∧ requests tr = 5 ∧ politeFactors tr = [])
    ∧ ((∀ j, j < 6 → permanent (oc j) = true) →
       ∃ tr, fetch_rest r oc base u
           = .ok (⟨r, none, none, none, none, none, none, none, "error",
                   some ("REST failed after retries for " ++ r)⟩, tr)
         ∧ requests tr = 6 ∧ politeFactors tr = [])
    ∧ (∀ (jfs : List (String × Json)) (sz : Option Int) (code : Nat),
       oc 0 = .response code (some (.obj jfs)) →
       retryable code = false → ¬(400 ≤ code ∧ code < 600) →
       extract_size ((jfs.lookup "dataset_info").getD (.obj [])) = .ok sz →
       ∃ tr, fetch_size r oc base u = .ok (⟨r, sz, "ok"⟩, tr) ∧ requests tr = 1) := by
  refine ⟨?_, ?_, ?_⟩
  · intro h
    obtain ⟨tr, htr, hreq, hpol⟩ :=
      run_fetch_all_retry (step_size oc) base u 5 0 1
        (fun j hj => step_size_permanent oc (0 + j) (by rw [Nat.zero_add]; exact h j hj))
    refine ⟨tr, ?_, hreq, hpol⟩
    rw [fetch_size, htr]
    rfl
  · intro h
    obtain ⟨tr, htr, hreq, hpol⟩ :=
      run_fetch_all_retry (step_rest oc) base u 6 0 1
        (fun j hj => step_rest_permanent oc (0 + j) (by rw [Nat.zero_add]; exact h j hj))
    refine ⟨tr, ?_, hreq, hpol⟩
    rw [fetch_rest, htr]
    rfl
  · intro jfs sz code h1 hret h2 hext
    have hstep : step_size oc 0 = .success true sz := by
      simp only [step_size, h1]
      rw [if_neg (by simp [hret]), if_neg h2]
      simp only [hext]
    have hrun : run_fetch (step_size oc) base u 5 0 1
        = .ok (some sz, Ev.request :: politeEvs base u true) :=
      run_fetch_success_first (step_size oc) base u 4 1 true sz hstep
    refine ⟨Ev.request :: politeEvs base u true, ?_, ?_⟩
    · rw [fetch_size, hrun]
      rfl
    · rw [show Ev.request :: politeEvs base u true
          = [Ev.request] ++ politeEvs base u true by simp,
        requests_append, requests_politeEvs]
      rfl

/-- Witness for the amended C2: a 404-always endpoint is retried through
all 5 attempts of `fetch_size`. -/
theorem fetch_permanent_retried_witness :
    ∃ tr, fetch_size "d" (fun _ => .response 404 none) 0 0
        = .ok (⟨"d", none, "error"⟩, tr) ∧ requests tr = 5 ∧ politeFactors tr = [] :=
  (fetch_permanent_retried "d" (fun _ => .response 404 none) 0 0).1
    (fun j hj => rfl)

/-- Counterexample to claim C7 as stated: exhausting the attempt cap (503
on every attempt, positive base delay) applies no politeness delay — the
error path returns without ever reaching `polite_sleep()`. -/
theorem polite_delay_exhaustion_counterexample :
    (fetch_size "d" (fun _ => .response 503 none) 1 0).map
        (fun p => (p.1.status, politeFactors p.2)) = .ok ("error", [])
    ∧ (0 : ℚ) < 1 := by
  constructor
  · rfl
  · norm_num

/-- Claim C7 (amended): the politeness factor `0.9 + 0.4 * u` lies in
[0.9, 1.3] for every random draw `u` in [0, 1) and depends on nothing but
`u` (in particular not on the backoff state); with a positive base delay a
politeness sleep is applied after every success; but no politeness delay is
applied when the attempt cap is exhausted by failures that never reach the
body handling. -/
theorem polite_delay_success_only (r : String) (oc : Nat → Outcome) (base u : ℚ) :
    (0 ≤ u → u < 1 → 9 / 10 ≤ polite_factor u ∧ polite_factor u ≤ 13 / 10)
    ∧ ∀ rec tr, fetch_size r oc base u = .ok (rec, tr) →
        (∀ q ∈ politeFactors tr, q = polite_factor u)
        ∧ (rec.status = "ok" → 0 < base → politeFactors tr ≠ [])
        ∧ ((∀ j, j < 5 → step_size oc j = .retry false) → politeFactors tr = []) := by
  constructor
  · intro h0 h1
    constructor
    · have h2 : 0 ≤ 2 / 5 * u := by positivity
      rw [polite_factor]
      linarith
    · have h2 : 2 / 5 * u ≤ 2 / 5 := by nlinarith
      rw [polite_factor]
      linarith
  · intro rec tr h
    obtain ⟨res, hrun⟩ := fetch_size_run h
    refine ⟨run_fetch_factors (step_size oc) base u 5 0 1 res tr hrun, ?_, ?_⟩
    · intro hok hbase
      cases res with
      | some payload =>
        exact run_fetch_success_polite (step_size oc) (step_size_success_called oc)
          base u hbase 5 0 1 payload tr hrun
      | none =>
        exfalso
        rw [fetch_size, hrun] at h
        simp only [Except.map] at h
        injection h with hpair
        have hrec : rec = ⟨r, none, "error"⟩ := (congrArg Prod.fst hpair).symm
        rw [hrec] at hok
        exact absurd hok (by simp)
    · intro hsteps
      obtain ⟨tr0, htr0, _, hpol0⟩ :=
        run_fetch_all_retry (step_size oc) base u 5 0 1
          (fun j hj => by rw [Nat.zero_add]; exact hsteps j hj)
      rw [htr0] at hrun
      injection hrun with hpair
      have h2 : tr0 = tr := congrArg Prod.snd hpair
      rw [← h2]
      exact hpol0

/-- Witness for the amended C7: a one-shot success with base 1 and draw 1/2
applies exactly the politeness sleep, whose factor is within bounds. -/
theorem polite_delay_success_only_witness :
    (9 / 10 ≤ polite_factor (1 / 2) ∧ polite_factor (1 / 2) ≤ 13 / 10)
    ∧ politeFactors [Ev.request, Ev.politeSleep (polite_factor (1 / 2))] ≠ [] := by
  have h := polite_delay_success_only "d"
    (fun _ => .response 200 (some (.obj [("dataset_info", .obj [("dataset_size", .num 10)])])))
    1 (1 / 2)
  refine ⟨h.1 (by norm_num) (by norm_num), ?_⟩
  exact (h.2 ⟨"d", some 10, "ok"⟩
    [Ev.request, Ev.politeSleep (polite_factor (1 / 2))] rfl).2.1 rfl (by norm_num)

/-- Claim C8: within one fetch (either variant), the backoff slept before
the k-th retry is `min (2^(k-1)) 30` time units: it starts at 1, doubles
after each caught failure, and is capped at 30. -/
theorem backoff_schedule (oc : Nat → Outcome) (base u : ℚ) (k : Nat) (hk : 1 ≤ k) :
    (∀ (r : String) (rec : SizeRecord) (tr : List Ev),
        fetch_size r oc base u = .ok (rec, tr) → k ≤ (backoffs tr).length →
        (backoffs tr).getD (k - 1) 0 = min (2 ^ (k - 1)) 30)
    ∧ (∀ (r : String) (rec : RestRecord) (tr : List Ev),
        fetch_rest r oc base u = .ok (rec, tr) → k ≤ (backoffs tr).length →
        (backoffs tr).getD (k - 1) 0 = min (2 ^ (k - 1)) 30) := by
  constructor
  · intro r rec tr h hlen
    obtain ⟨res, hrun⟩ := fetch_size_run h
    have h2 := run_fetch_backoffs (step_size oc) base u 5 0 0 res tr hrun (k - 1) (by omega)
    rwa [Nat.zero_add] at h2
  · intro r rec tr h hlen
    obtain ⟨res, hrun⟩ := fetch_rest_run h
    have h2 := run_fetch_backoffs (step_rest oc) base u 6 0 0 res tr hrun (k - 1) (by omega)
    rwa [Nat.zero_add] at h2

/-- Witness for C8: the third backoff sleep of a concrete exhausted fetch
is 4 = min (2^2) 30 time units. -/
theorem backoff_schedule_witness :
    (backoffs [Ev.request, Ev.backoffSleep 1, Ev.request, Ev.backoffSleep 2,
        Ev.request, Ev.backoffSleep 4, Ev.request, Ev.backoffSleep 8,
        Ev.request, Ev.backoffSleep 16]).getD 2 0 = min (2 ^ 2) 30 :=
  (backoff_schedule (fun _ => .response 404 none) 0 0 3 (by decide)).1
    "d" ⟨"d", none, "error"⟩
    [Ev.request, Ev.backoffSleep 1, Ev.request, Ev.backoffSleep 2,
      Ev.request, Ev.backoffSleep 4, Ev.request, Ev.backoffSleep 8,
      Ev.request, Ev.backoffSleep 16]
    rfl (by decide)

end Harvest
